import Mathlib

/-!
Verification development for the trading-ai repository.

All prices, quantities and scores are modelled as exact rationals (`ℚ`):
the Python source computes with IEEE floats, but every claim under study is
about the algebraic structure of the computations (guards, clamps, weights,
loop ranges), which rationals reproduce exactly.  Input data is modelled as
well-formed numeric series (no NaN/inf), under which the source's
`to_numeric` / `fillna` / `replace(inf)` preprocessing steps are the
identity and the try/except wrappers never fire.
-/

/- The rational-number primitives are deliberately `@[irreducible]` in the
standard library, which prevents `decide` from evaluating any concrete
rational computation; restoring the default reducibility lets the witness
and counterexample theorems below evaluate the embedded functions on
concrete inputs.  Kernel checking is unaffected by reducibility
attributes. -/
set_option allowUnsafeReducibility true in
attribute [semireducible] Rat.add Rat.sub Rat.mul Rat.div Rat.neg Rat.inv Rat.blt

set_option maxRecDepth 100000

namespace TradingAI

/-- One OHLCV candle (`src/src/analysis/...` DataFrame row).  The column
`open` is renamed `open_price` because `open` is a Lean keyword. -/
structure Candle where
  open_price : ℚ
  high : ℚ
  low : ℚ
  close : ℚ
  volume : ℚ
  deriving DecidableEq, Inhabited, Repr

/-! ## RSI — `TechnicalIndicators.calculate_advanced_rsi`
(`src/src/analysis/indicators/technical_indicators.py`, lines 25-66).

We embed the `'RSI'` series of the returned dictionary; the `signals` and
divergence series of the same function are not referenced by any claim.
On finite numeric input the preprocessing (lines 38-44) is the identity
and the final `fillna(50)` (line 66) never fires because the epsilon guard
keeps every intermediate value finite. -/

/-- `delta = data.diff()` at index `i`; the leading NaN is modelled as `0`
because both `gain` and `loss` immediately `fillna(0)` it (lines 50-51). -/
def deltaAt (xs : List ℚ) (i : ℕ) : ℚ :=
  if i = 0 then 0 else xs.getD i 0 - xs.getD (i - 1) 0

/-- `gain = delta.clip(lower=0).fillna(0)` at index `i` (line 50). -/
def gainAt (xs : List ℚ) (i : ℕ) : ℚ := max (deltaAt xs i) 0

/-- `loss = (-delta.clip(upper=0)).fillna(0)` at index `i` (line 51). -/
def lossAt (xs : List ℚ) (i : ℕ) : ℚ := max (-(deltaAt xs i)) 0

/-- `.rolling(window=p, min_periods=1).mean()` of the pointwise series `f`
at index `i`: the mean of the last `min (i+1) p` values (lines 54-55). -/
def rollMean (f : ℕ → ℚ) (p i : ℕ) : ℚ :=
  ((List.range (min (i + 1) p)).map (fun k => f (i - k))).sum / (min (i + 1) p : ℚ)

/-- `avg_gain` at index `i` (line 54). -/
def avgGainAt (xs : List ℚ) (p i : ℕ) : ℚ := rollMean (gainAt xs) p i

/-- `avg_loss` at index `i` (line 55). -/
def avgLossAt (xs : List ℚ) (p i : ℕ) : ℚ := rollMean (lossAt xs) p i

/-- `avg_loss = avg_loss.replace(0, 0.00001)` (line 58). -/
def avgLossGuard (xs : List ℚ) (p i : ℕ) : ℚ :=
  if avgLossAt xs p i = 0 then 1 / 100000 else avgLossAt xs p i

/-- `rsi = (100 - 100/(1 + avg_gain/avg_loss)).clip(0, 100)` at index `i`
(lines 61-65); the clip is lower bound `0` then upper bound `100`. -/
def rsiAt (xs : List ℚ) (p i : ℕ) : ℚ :=
  min 100 (max 0 (100 - 100 / (1 + avgGainAt xs p i / avgLossGuard xs p i)))

/-- The `'RSI'` series returned by `calculate_advanced_rsi` on a finite
numeric price series `xs` with RSI period `p` (source default 14). -/
def calculate_advanced_rsi (xs : List ℚ) (p : ℕ) : List ℚ :=
  (List.range xs.length).map (rsiAt xs p)

lemma constant_getD {xs : List ℚ} {c : ℚ} (hc : ∀ x ∈ xs, x = c) {j : ℕ}
    (hj : j < xs.length) : xs.getD j 0 = c := by
  rw [List.getD_eq_getElem xs 0 hj]
  exact hc _ (xs.getElem_mem hj)

lemma constant_deltaAt {xs : List ℚ} {c : ℚ} (hc : ∀ x ∈ xs, x = c) {j : ℕ}
    (hj : j < xs.length) : deltaAt xs j = 0 := by
  unfold deltaAt
  rcases Nat.eq_zero_or_pos j with h0 | hpos
  · simp [h0]
  · rw [if_neg (Nat.pos_iff_ne_zero.mp hpos)]
    rw [constant_getD hc hj, constant_getD hc (lt_of_le_of_lt (Nat.sub_le j 1) hj)]
    ring

lemma constant_avgGainAt {xs : List ℚ} {c : ℚ} (hc : ∀ x ∈ xs, x = c) {p i : ℕ}
    (hi : i < xs.length) : avgGainAt xs p i = 0 := by
  unfold avgGainAt rollMean
  have hz : ((List.range (min (i + 1) p)).map (fun k => gainAt xs (i - k))).sum = 0 := by
    apply List.sum_eq_zero
    intro x hx
    obtain ⟨k, _, rfl⟩ := List.mem_map.mp hx
    unfold gainAt
    rw [constant_deltaAt hc (lt_of_le_of_lt (Nat.sub_le i k) hi)]
    simp
  rw [hz, zero_div]

/-- **C1.** For every input price series of length ≥ 1 whose values are all
equal, `calculate_advanced_rsi` returns an RSI series whose value at every
bar is `0` — not the claimed neutral `50`: with all deltas zero the gain
average is `0`, the zero loss average is replaced by epsilon, so
`RS = 0` and `RSI = 100 − 100/(1+0) = 0`.  For every input series every
returned RSI value lies in `[0, 100]` (the `clip(0, 100)`). -/
theorem c1_rsi_constant_and_range (p : ℕ) (xs : List ℚ) (v : ℚ)
    (hv : v ∈ calculate_advanced_rsi xs p) :
    (0 ≤ v ∧ v ≤ 100) ∧ (∀ c : ℚ, (∀ x ∈ xs, x = c) → v = 0) := by
  obtain ⟨i, hi, rfl⟩ := List.mem_map.mp hv
  have hilt : i < xs.length := List.mem_range.mp hi
  constructor
  · constructor
    · exact le_min (by norm_num) (le_max_left 0 _)
    · exact min_le_left _ _
  · intro c hc
    unfold rsiAt
    rw [constant_avgGainAt hc hilt, zero_div]
    norm_num

/-- Witness for the hypotheses of `c1_rsi_constant_and_range` at the
concrete constant series `[100, 100]` (value `0` is in the output). -/
theorem c1_rsi_witness :
    (0 : ℚ) ∈ calculate_advanced_rsi [100, 100] 14 ∧
      ((0 ≤ (0 : ℚ) ∧ (0 : ℚ) ≤ 100) ∧
        (∀ c : ℚ, (∀ x ∈ [(100 : ℚ), 100], x = c) → (0 : ℚ) = 0)) :=
  ⟨by decide, c1_rsi_constant_and_range 14 [100, 100] 0 (by decide)⟩

/-- **C1 counterexample.** The claim "constant-price input yields RSI = 50
at every bar" is false at the constant series `[100, 100]`: the RSI series
is `[0, 0]` and no bar carries the value `50`. -/
theorem c1_counterexample :
    calculate_advanced_rsi [100, 100] 14 = [0, 0] ∧
      (50 : ℚ) ∉ calculate_advanced_rsi [100, 100] 14 := by
  constructor <;> decide

/-! ## Risk scorer — `RiskAnalyzer` (`src/src/analysis/risk_analyzer.py`).

The claim under study (C2) concerns the composite formula of
`calculate_risk_metrics` (lines 37-46) and the weights declared in
`__init__` (lines 9-13).  The sub-scores (`volatility_risk`,
`liquidity_risk`, `volume_stability`, `market_depth['strength']`) are
computed by separate helper methods and enter the composite only through
their values, so they appear here as abstract rational inputs. -/

/-- The weight configuration set in `RiskAnalyzer.__init__`. -/
structure RiskAnalyzer where
  volatility_weight : ℚ
  liquidity_weight : ℚ
  market_cap_weight : ℚ
  volume_stability_weight : ℚ
  correlation_weight : ℚ

/-- The weights assigned in `RiskAnalyzer.__init__` (lines 9-13). -/
def RiskAnalyzer.init : RiskAnalyzer :=
  ⟨3/10, 25/100, 2/10, 15/100, 1/10⟩

/-- Replace only the `correlation_weight` field of a configuration. -/
def withCorrelation (ra : RiskAnalyzer) (c : ℚ) : RiskAnalyzer :=
  ⟨ra.volatility_weight, ra.liquidity_weight, ra.market_cap_weight,
    ra.volume_stability_weight, c⟩

/-- `risk_metrics['overall_risk_score']` (lines 38-45): the weighted sum of
`volatility_risk` (`v`), `liquidity_risk` (`l`), `1 - volume_stability`
(`s`) and `1 - market_depth['strength']` (`d`) times 100, then
`min(max(·, 0), 100)`.  Note the depth term is weighted by
`market_cap_weight`. -/
def overall_risk_score (ra : RiskAnalyzer) (v l s d : ℚ) : ℚ :=
  min (max ((v * ra.volatility_weight +
             l * ra.liquidity_weight +
             (1 - s) * ra.volume_stability_weight +
             (1 - d) * ra.market_cap_weight) * 100) 0) 100

/-- **C2.** On the success path `calculate_risk_metrics` returns
`overall_risk_score` equal to
`100·(0.30·volatility_risk + 0.25·liquidity_risk + 0.15·(1−volume_stability)
+ 0.20·(1−market_depth.strength))` clamped to `[0,100]`, and the declared
`correlation_weight = 0.10` contributes nothing to the composite. -/
theorem c2_overall_risk_score (v l s d : ℚ) :
    overall_risk_score RiskAnalyzer.init v l s d
      = min (max (100 * (30/100 * v + 25/100 * l + 15/100 * (1 - s) +
          20/100 * (1 - d))) 0) 100
    ∧ ∀ c : ℚ, overall_risk_score (withCorrelation RiskAnalyzer.init c) v l s d
        = overall_risk_score RiskAnalyzer.init v l s d := by
  constructor
  · have h : (v * (3/10 : ℚ) + l * (25/100) + (1 - s) * (15/100) +
        (1 - d) * (2/10)) * 100
        = 100 * (30/100 * v + 25/100 * l + 15/100 * (1 - s) +
          20/100 * (1 - d)) := by ring
    unfold overall_risk_score RiskAnalyzer.init
    rw [← h]
  · intro c
    rfl

/-! ## Order-book analyzer — `MarketAnalyzer.analyze_order_book_depth`
(`src/src/analysis/market_data/market_analyzer.py`, lines 105-237).

The network fetch (lines 117-120) is external; the snapshot it yields is
the input here.  A payload missing the `'bids'`/`'asks'` keys (line 122)
is not representable in the typed model, so the `None` returns of lines
122-132 collapse to the emptiness test of either side. -/

/-- A depth snapshot: `(price, quantity)` levels for each side. -/
structure DepthSnapshot where
  bids : List (ℚ × ℚ)
  asks : List (ℚ × ℚ)
  deriving DecidableEq, Repr

/-- A liquidity zone as built by `_identify_liquidity_zones`
(lines 218-232): start price, end price and accumulated volume. -/
structure Zone where
  start_price : ℚ
  end_price : ℚ
  volume : ℚ
  deriving DecidableEq, Repr

/-- The loop of `_identify_liquidity_zones` (lines 223-232): accumulate
quantities; once the running volume reaches the threshold, close the zone
at the current price and restart from it with volume `0`.  The final
unclosed zone is discarded, as in the source. -/
def zonesAux (thr : ℚ) : List (ℚ × ℚ) → ℚ → ℚ → List Zone
  | [], _, _ => []
  | (p, q) :: rest, start, acc =>
      if thr ≤ acc + q then ⟨start, p, acc + q⟩ :: zonesAux thr rest p 0
      else zonesAux thr rest start (acc + q)

/-- `_identify_liquidity_zones(df, volume_threshold=0.1)`
(lines 197-237): empty side or zero total volume yields no zones. -/
def identify_liquidity_zones (l : List (ℚ × ℚ)) (volume_threshold : ℚ) :
    List Zone :=
  match l with
  | [] => []
  | (p0, _) :: _ =>
      let total := (l.map (·.2)).sum
      if total = 0 then [] else zonesAux (total * volume_threshold) l p0 0

/-- The analysis dictionary returned by `analyze_order_book_depth`
(lines 175-191).  `bid_ask_ratio` is `none` for the `float('inf')` case
(zero ask volume, line 147); the two liquidity-zone lists are the
`'liquidity_zones'` sub-dictionary. -/
structure OrderBookAnalysis where
  mid_price : ℚ
  spread : ℚ
  spread_percentage : ℚ
  bid_ask_ratio : Option ℚ
  bid_volume : ℚ
  ask_volume : ℚ
  total_volume : ℚ
  buy_pressure : ℚ
  sell_pressure : ℚ
  bid_walls : List (ℚ × ℚ)
  ask_walls : List (ℚ × ℚ)
  liquidity_zones_bids : List Zone
  liquidity_zones_asks : List Zone
  deriving DecidableEq, Repr

/-- `analyze_order_book_depth` (lines 114-195) on a typed snapshot.
Empty bids or asks short-circuit to `none` (lines 130-132); there is no
other validation — in particular no bid/ask ordering check — before the
metrics are computed from the first (best) level of each side. -/
def analyze_order_book_depth (d : DepthSnapshot) : Option OrderBookAnalysis :=
  if d.bids = [] ∨ d.asks = [] then none
  else
    let bestBid := (d.bids.headD (0, 0)).1
    let bestAsk := (d.asks.headD (0, 0)).1
    let mid := (bestBid + bestAsk) / 2
    let spread := bestAsk - bestBid
    let bidVol := (d.bids.map (·.2)).sum
    let askVol := (d.asks.map (·.2)).sum
    let totalVol := bidVol + askVol
    let avgBid := bidVol / d.bids.length
    let avgAsk := askVol / d.asks.length
    some
      { mid_price := mid
        spread := spread
        spread_percentage := spread / mid * 100
        bid_ask_ratio := if 0 < askVol then some (bidVol / askVol) else none
        bid_volume := bidVol
        ask_volume := askVol
        total_volume := totalVol
        buy_pressure := if 0 < totalVol then bidVol / totalVol * 100 else 50
        sell_pressure := if 0 < totalVol then askVol / totalVol * 100 else 50
        bid_walls := d.bids.filter (fun r => avgBid * 2 < r.2)
        ask_walls := d.asks.filter (fun r => avgAsk * 2 < r.2)
        liquidity_zones_bids := identify_liquidity_zones d.bids (1/10)
        liquidity_zones_asks := identify_liquidity_zones d.asks (1/10) }

/-- A crossed order book: best bid 101 above best ask 100. -/
def crossedSnap : DepthSnapshot := ⟨[(101, 1)], [(100, 1)]⟩

/-- **C6 counterexample.**  The crossed snapshot
`bids = [[101, 1]]`, `asks = [[100, 1]]` has best bid ≥ best ask, yet
`analyze_order_book_depth` does not reject it: it returns computed
metrics (with negative spread `-1`) rather than `None`. -/
theorem c6_counterexample :
    (crossedSnap.asks.headD (0, 0)).1 ≤ (crossedSnap.bids.headD (0, 0)).1 ∧
      (analyze_order_book_depth crossedSnap).isSome = true ∧
      (analyze_order_book_depth crossedSnap).map (·.spread) = some (-1) := by
  refine ⟨by norm_num [crossedSnap], ?_, ?_⟩ <;> decide

/-- **C6 (amended).**  `analyze_order_book_depth` performs no crossed-book
validation: it returns `none` exactly when the bid side or the ask side is
empty, and for every snapshot with nonempty bids and asks — crossed or
locked books included — it returns computed metrics. -/
theorem c6_no_crossed_book_validation (d : DepthSnapshot) :
    (analyze_order_book_depth d).isSome = true ↔
      (d.bids ≠ [] ∧ d.asks ≠ []) := by
  unfold analyze_order_book_depth
  by_cases h : d.bids = [] ∨ d.asks = []
  · rw [if_pos h]
    simp only [Option.isSome_none]
    constructor
    · intro hfalse; cases hfalse
    · intro ⟨hb, ha⟩
      rcases h with h | h
      · exact absurd h hb
      · exact absurd h ha
  · rw [if_neg h]
    push_neg at h
    simp [h]

/-- The scenario snapshot of the spec: `bids=[[100,50]]`, `asks=[[101,1]]`. -/
def snapC8 : DepthSnapshot := ⟨[(100, 50)], [(101, 1)]⟩

/-- **C8 counterexample.**  At the scenario snapshot the source computes
`spread_percentage = spread / mid_price * 100 = 1 / 100.5 * 100 = 200/201
≈ 0.995`, not the claimed `1.0`. -/
theorem c8_counterexample :
    (analyze_order_book_depth snapC8).map (·.spread_percentage)
        = some (200/201) ∧ (200/201 : ℚ) ≠ 1 := by
  constructor <;> decide

/-- **C8 (amended).**  For the depth snapshot with `bids = [[100, 50]]`
and `asks = [[101, 1]]`, `analyze_order_book_depth` returns
`buy_pressure = 5000/51 ≈ 98.04`, `spread = 1` exactly, and
`spread_percentage = 200/201 ≈ 0.995` (the spread as a percentage of the
mid-price `100.5`), not `1.0`. -/
theorem c8_scenario :
    (analyze_order_book_depth snapC8).map (·.buy_pressure) = some (5000/51) ∧
      (analyze_order_book_depth snapC8).map (·.spread) = some 1 ∧
      (analyze_order_book_depth snapC8).map (·.spread_percentage)
        = some (200/201) := by
  refine ⟨?_, ?_, ?_⟩ <;> decide

/-! ## Engulfing pattern — `CandlestickPatterns.identify_engulfing`
(`src/src/analysis/patterns/candlestick_patterns.py`, lines 101-139). -/

/-- `data['open'].iloc[j]` with the source's row access modelled as
`getD` with the all-zero default (indices are always in range where
used). -/
def openAt (data : List Candle) (j : ℕ) : ℚ := (data.getD j default).open_price

/-- `data['high'].iloc[j]`. -/
def highAt (data : List Candle) (j : ℕ) : ℚ := (data.getD j default).high

/-- `data['low'].iloc[j]`. -/
def lowAt (data : List Candle) (j : ℕ) : ℚ := (data.getD j default).low

/-- `data['close'].iloc[j]`. -/
def closeAt (data : List Candle) (j : ℕ) : ℚ := (data.getD j default).close

/-- `_body_length` (line 9) at bar `j`: `abs(close - open)`. -/
def bodyAt (data : List Candle) (j : ℕ) : ℚ :=
  |closeAt data j - openAt data j|

/-- The bullish-engulfing condition of lines 118-122: previous candle
bearish, current bullish, current opens at or below previous close,
closes at or above previous open, and has strictly larger body. -/
def bullEngulf (data : List Candle) (i : ℕ) : Prop :=
  closeAt data (i-1) < openAt data (i-1) ∧
  openAt data i < closeAt data i ∧
  openAt data i ≤ closeAt data (i-1) ∧
  openAt data (i-1) ≤ closeAt data i ∧
  bodyAt data (i-1) < bodyAt data i

/-- The bearish-engulfing condition of lines 126-130 (the mirror). -/
def bearEngulf (data : List Candle) (i : ℕ) : Prop :=
  openAt data (i-1) < closeAt data (i-1) ∧
  closeAt data i < openAt data i ∧
  closeAt data (i-1) ≤ openAt data i ∧
  closeAt data i ≤ openAt data (i-1) ∧
  bodyAt data (i-1) < bodyAt data i

instance (data : List Candle) (i : ℕ) : Decidable (bullEngulf data i) := by
  unfold bullEngulf; infer_instance

instance (data : List Candle) (i : ℕ) : Decidable (bearEngulf data i) := by
  unfold bearEngulf; infer_instance

/-- The per-bar signal of the loop at lines 112-134: bar 0 keeps the
initial `0`, later bars get `1` on the bullish condition, else `-1` on the
bearish condition, else `0`. -/
def engulfingSignal (data : List Candle) (i : ℕ) : ℤ :=
  if i = 0 then 0
  else if bullEngulf data i then 1
  else if bearEngulf data i then -1
  else 0

/-- `identify_engulfing(data)`: one signal per bar. -/
def identify_engulfing (data : List Candle) : List ℤ :=
  (List.range data.length).map (engulfingSignal data)

/-- Swap the open and close of a candle (flips its direction, preserves
its body size and its shadows' span). -/
def swapOC (c : Candle) : Candle :=
  ⟨c.close, c.high, c.low, c.open_price, c.volume⟩

lemma getD_map_swapOC (data : List Candle) (j : ℕ) :
    (data.map swapOC).getD j default = swapOC (data.getD j default) := by
  induction data generalizing j with
  | nil => cases j <;> rfl
  | cons c rest ih =>
      cases j with
      | zero => rfl
      | succ j => simpa using ih j

lemma openAt_map_swapOC (data : List Candle) (j : ℕ) :
    openAt (data.map swapOC) j = closeAt data j := by
  unfold openAt closeAt
  rw [getD_map_swapOC]
  rfl

lemma closeAt_map_swapOC (data : List Candle) (j : ℕ) :
    closeAt (data.map swapOC) j = openAt data j := by
  unfold openAt closeAt
  rw [getD_map_swapOC]
  rfl

lemma bodyAt_map_swapOC (data : List Candle) (j : ℕ) :
    bodyAt (data.map swapOC) j = bodyAt data j := by
  unfold bodyAt
  rw [openAt_map_swapOC, closeAt_map_swapOC, abs_sub_comm]

lemma bullEngulf_map_swapOC (data : List Candle) (i : ℕ) :
    bullEngulf (data.map swapOC) i ↔ bearEngulf data i := by
  unfold bullEngulf bearEngulf
  rw [openAt_map_swapOC, openAt_map_swapOC, closeAt_map_swapOC,
    closeAt_map_swapOC, bodyAt_map_swapOC, bodyAt_map_swapOC]
  constructor
  · rintro ⟨h1, h2, h3, h4, h5⟩; exact ⟨h1, h2, h4, h3, h5⟩
  · rintro ⟨h1, h2, h3, h4, h5⟩; exact ⟨h1, h2, h4, h3, h5⟩

lemma bearEngulf_map_swapOC (data : List Candle) (i : ℕ) :
    bearEngulf (data.map swapOC) i ↔ bullEngulf data i := by
  unfold bullEngulf bearEngulf
  rw [openAt_map_swapOC, openAt_map_swapOC, closeAt_map_swapOC,
    closeAt_map_swapOC, bodyAt_map_swapOC, bodyAt_map_swapOC]
  constructor
  · rintro ⟨h1, h2, h3, h4, h5⟩; exact ⟨h1, h2, h4, h3, h5⟩
  · rintro ⟨h1, h2, h3, h4, h5⟩; exact ⟨h1, h2, h4, h3, h5⟩

lemma engulfingSignal_map_swapOC (data : List Candle) (i : ℕ) :
    engulfingSignal (data.map swapOC) i = -engulfingSignal data i := by
  unfold engulfingSignal
  by_cases h0 : i = 0
  · simp [h0]
  · rw [if_neg h0, if_neg h0]
    by_cases hbull : bullEngulf data i
    · have hnotbear : ¬ bearEngulf data i := by
        intro hbear
        exact absurd hbull.1 (not_lt.mpr (le_of_lt hbear.1))
      rw [if_neg, if_pos ((bearEngulf_map_swapOC data i).mpr hbull),
        if_pos hbull]
      rw [bullEngulf_map_swapOC]
      exact hnotbear
    · by_cases hbear : bearEngulf data i
      · rw [if_pos ((bullEngulf_map_swapOC data i).mpr hbear),
          if_neg hbull, if_pos hbear]
        norm_num
      · rw [if_neg, if_neg, if_neg hbull, if_neg hbear]
        · norm_num
        · rw [bearEngulf_map_swapOC]; exact hbull
        · rw [bullEngulf_map_swapOC]; exact hbear

/-- **C9.**  `identify_engulfing` is antisymmetric: swapping open and
close of every candle maps the signal series to its bar-for-bar negation
(`+1 ↔ −1`, `0` fixed).  The two conditions are mutually exclusive via the
direction of the previous candle, so the `elif` is a true dichotomy. -/
theorem c9_engulfing_antisymmetric (data : List Candle) :
    identify_engulfing (data.map swapOC)
      = (identify_engulfing data).map (fun s => -s) := by
  unfold identify_engulfing
  rw [List.length_map, List.map_map]
  apply List.map_congr_left
  intro i _
  exact engulfingSignal_map_swapOC data i

/-! ## Support/resistance — `TechnicalIndicators.calculate_support_resistance`
(`src/src/analysis/indicators/technical_indicators.py`, lines 114-186). -/

/-- The two kinds of level candidate. -/
inductive LevelType where
  | support
  | resistance
  deriving DecidableEq, Repr

/-- `is_support(df, i)` (lines 127-135): bounds check, then no low in
`range(i-window, i+window)` — note the asymmetric right end — strictly
below `low[i]`. -/
def is_support (data : List Candle) (window i : ℕ) : Bool :=
  if i < window ∨ data.length ≤ i + window then false
  else (List.range (2 * window)).all
    (fun k => !decide (lowAt data (i - window + k) < lowAt data i))

/-- `is_resistance(df, i)` (lines 137-145). -/
def is_resistance (data : List Candle) (window i : ℕ) : Bool :=
  if i < window ∨ data.length ≤ i + window then false
  else (List.range (2 * window)).all
    (fun k => !decide (highAt data i < highAt data (i - window + k)))

/-- The candidate list built by the loop at lines 147-154:
`for i in range(window, len(data) - window)`, support tested first,
resistance only in the `elif`. -/
def sr_candidates (data : List Candle) (window : ℕ) :
    List (ℕ × ℚ × LevelType) :=
  (List.range data.length).filterMap (fun i =>
    if window ≤ i ∧ i + window < data.length then
      (if is_support data window i then some (i, lowAt data i, .support)
       else if is_resistance data window i then
         some (i, highAt data i, .resistance)
       else none)
    else none)

/-- The touch count of lines 160-172: over **all** bars of the data —
including the candidate's own bar — count those whose low (for support) or
high (for resistance) is within `0.2%` of the level price. -/
def touchCount (data : List Candle) (price : ℚ) (ty : LevelType) : ℕ :=
  ((List.range data.length).filter (fun j =>
    decide (|(match ty with
              | .support => lowAt data j
              | .resistance => highAt data j) - price| ≤
      price * (2/1000)))).length

/-- The confirmation filter of lines 174-178 for one level type. -/
def confirmed_levels (data : List Candle) (window num_touches : ℕ)
    (ty : LevelType) : List ℚ :=
  (sr_candidates data window).filterMap (fun t =>
    if t.2.2 = ty ∧ num_touches ≤ touchCount data t.2.1 ty then some t.2.1
    else none)

/-- Ascending insertion preserving order. -/
def insertAsc (x : ℚ) : List ℚ → List ℚ
  | [] => [x]
  | y :: ys => if x ≤ y then x :: y :: ys else y :: insertAsc x ys

/-- `sorted(...)` on a list of prices. -/
def sortAsc (l : List ℚ) : List ℚ := l.foldr insertAsc []

/-- `sorted(list(set(...)))` (lines 181-182). -/
def sortedDedup (l : List ℚ) : List ℚ := sortAsc l.dedup

/-- The dictionary returned by `calculate_support_resistance`. -/
structure SRLevels where
  support : List ℚ
  resistance : List ℚ
  deriving DecidableEq, Repr

/-- `calculate_support_resistance(data, window, num_touches)`
(lines 114-183). -/
def calculate_support_resistance (data : List Candle)
    (window num_touches : ℕ) : SRLevels :=
  ⟨sortedDedup (confirmed_levels data window num_touches .support),
   sortedDedup (confirmed_levels data window num_touches .resistance)⟩

lemma mem_insertAsc {q x : ℚ} {l : List ℚ} (h : q ∈ insertAsc x l) :
    q = x ∨ q ∈ l := by
  induction l with
  | nil => simpa [insertAsc] using h
  | cons y ys ih =>
      unfold insertAsc at h
      by_cases hxy : x ≤ y
      · rw [if_pos hxy] at h
        simpa using h
      · rw [if_neg hxy] at h
        rcases List.mem_cons.mp h with h | h
        · exact Or.inr (List.mem_cons.mpr (Or.inl h))
        · rcases ih h with h | h
          · exact Or.inl h
          · exact Or.inr (List.mem_cons.mpr (Or.inr h))

lemma mem_sortAsc {q : ℚ} {l : List ℚ} (h : q ∈ sortAsc l) : q ∈ l := by
  induction l with
  | nil => simp [sortAsc] at h
  | cons y ys ih =>
      unfold sortAsc at h
      rcases mem_insertAsc h with h | h
      · exact List.mem_cons.mpr (Or.inl h)
      · exact List.mem_cons.mpr (Or.inr (ih h))

lemma mem_sortedDedup {q : ℚ} {l : List ℚ} (h : q ∈ sortedDedup l) :
    q ∈ l :=
  List.mem_dedup.mp (mem_sortAsc h)

lemma mem_confirmed_levels {data : List Candle}
    {window num_touches : ℕ} {ty : LevelType} {price : ℚ}
    (h : price ∈ confirmed_levels data window num_touches ty) :
    num_touches ≤ touchCount data price ty := by
  obtain ⟨t, _, hsome⟩ := List.mem_filterMap.mp h
  by_cases hcond : t.2.2 = ty ∧ num_touches ≤ touchCount data t.2.1 ty
  · rw [if_pos hcond] at hsome
    obtain rfl := Option.some_injective _ hsome
    exact hcond.2
  · rw [if_neg hcond] at hsome
    cases hsome

/-- **C5 (amended).**  `calculate_support_resistance` confirms a candidate
level only if at least `num_touches` bars **counting the candidate bar
itself** have their low (support) or high (resistance) within `0.2%` of
the candidate's price — i.e. at least `num_touches - 1` bars other than
the candidate, not `num_touches` others as claimed: the touch loop of
lines 166-172 runs over every bar and the candidate always matches its own
level exactly. -/
theorem c5_confirmed_implies_touches (data : List Candle)
    (window num_touches : ℕ) (price : ℚ) :
    (price ∈ (calculate_support_resistance data window num_touches).support →
      num_touches ≤ touchCount data price .support) ∧
    (price ∈ (calculate_support_resistance data window num_touches).resistance →
      num_touches ≤ touchCount data price .resistance) := by
  constructor <;> intro h <;>
    exact mem_confirmed_levels (mem_sortedDedup h)

/-- The four-bar fixture refuting C5 as stated: lows
`[10, 5, 5.005, 10]`, highs `[20, 21, 22, 23]`. -/
def dataC5 : List Candle :=
  [⟨15, 20, 10, 15, 1⟩, ⟨15, 21, 5, 15, 1⟩,
   ⟨15, 22, 1001/200, 15, 1⟩, ⟨15, 23, 10, 15, 1⟩]

/-- **C5 counterexample.**  With `window = 1`, `num_touches = 2`, bar 1
(low `5`) is a confirmed support level of `dataC5`, yet only one bar other
than the candidate itself (bar 2, low `5.005`) is within `0.2%` of `5` —
the claim would require two such other bars. -/
theorem c5_counterexample :
    (5 : ℚ) ∈ (calculate_support_resistance dataC5 1 2).support ∧
      ((List.range dataC5.length).filter (fun j =>
        decide (j ≠ 1) && decide (|lowAt dataC5 j - 5| ≤ 5 * (2/1000)))).length
        < 2 := by
  constructor <;> decide

/-- Witness for `c5_confirmed_implies_touches` at `dataC5`: level `5` is
in the support list, and the (self-including) touch count is ≥ 2. -/
theorem c5_witness :
    (5 : ℚ) ∈ (calculate_support_resistance dataC5 1 2).support ∧
      2 ≤ touchCount dataC5 5 .support :=
  ⟨by decide, (c5_confirmed_implies_touches dataC5 1 2 5).1 (by decide)⟩

/-! ## Volume profile — `TechnicalIndicators.calculate_volume_profile`
(`src/src/analysis/indicators/technical_indicators.py`, lines 188-269). -/

/-- `min` of a list of prices (`Series.min()`); `0` on the empty list
(unreachable where used). -/
def listMinQ : List ℚ → ℚ
  | [] => 0
  | x :: xs => xs.foldl min x

/-- `max` of a list of prices (`Series.max()`); `0` on the empty list
(unreachable where used). -/
def listMaxQ : List ℚ → ℚ
  | [] => 0
  | x :: xs => xs.foldl max x

/-- `Series.mean()`. -/
def meanQ (l : List ℚ) : ℚ := l.sum / l.length

/-- `np.linspace(a, b, n)`: `n` evenly spaced points from `a` to `b`
inclusive (step `(b-a)/(n-1)`); `[a]` for `n = 1`, `[]` for `n = 0`. -/
def linspace (a b : ℚ) (n : ℕ) : List ℚ :=
  if n ≤ 1 then List.replicate n a
  else (List.range n).map (fun i : ℕ => a + (i : ℚ) * (b - a) / ((n : ℚ) - 1))

/-- `price_min = min(data['low'].min(), data['close'].min())` (line 203). -/
def pminOf (data : List Candle) : ℚ :=
  min (listMinQ (data.map (·.low))) (listMinQ (data.map (·.close)))

/-- `price_max = max(data['high'].max(), data['close'].max())` (line 204). -/
def pmaxOf (data : List Candle) : ℚ :=
  max (listMaxQ (data.map (·.high))) (listMaxQ (data.map (·.close)))

/-- `price_max` after the degenerate-range guard of lines 206-207. -/
def adjustedMax (data : List Candle) : ℚ :=
  if pminOf data = pmaxOf data then pminOf data * (1001/1000) else pmaxOf data

/-- `price_delta` with the zero guard of lines 209-211. -/
def deltaOf (data : List Candle) (price_levels : ℕ) : ℚ :=
  let d := (adjustedMax data - pminOf data) / price_levels
  if d = 0 then 1/100000 else d

/-- The bin prices: `np.linspace(price_min, price_max, price_levels)`
(line 213). -/
def binsOf (data : List Candle) (price_levels : ℕ) : List ℚ :=
  linspace (pminOf data) (adjustedMax data) price_levels

/-- The volume a single candle adds to the bin at price `q`
(lines 216-231): when `q` lies in the candle's `[low, high]` range (with
the `high == low` guard of lines 222-223), the candle's volume divided by
`(high - low) / price_delta`. -/
def contributionAt (c : Candle) (q delta : ℚ) : ℚ :=
  if c.low ≤ q ∧
      q ≤ (if c.high = c.low then c.low * (100001/100000) else c.high)
  then c.volume /
    (((if c.high = c.low then c.low * (100001/100000) else c.high) - c.low)
      / delta)
  else 0

/-- The accumulated `volume_profile` series: one `(price, volume)` pair
per bin. -/
def profileOf (data : List Candle) (price_levels : ℕ) : List (ℚ × ℚ) :=
  (binsOf data price_levels).map (fun q =>
    (q, (data.map (fun c => contributionAt c q (deltaOf data price_levels))).sum))

/-- `Series.idxmax()`: the first `(price, volume)` pair attaining the
maximal volume (pandas returns the first index on ties; a strictly larger
later value is needed to displace the current best). -/
def firstMax : List (ℚ × ℚ) → Option (ℚ × ℚ)
  | [] => none
  | x :: xs =>
      match firstMax xs with
      | none => some x
      | some m => if x.2 < m.2 then some m else some x

/-- What `volume_profile.sort_values(ascending=False)` (line 243)
guarantees about its output — and nothing more: `sorted` is a permutation
of the bins, nonincreasing by volume.  pandas' default `kind='quicksort'`
is documented as **not stable**, so the relative order of equal-volume
bins is unspecified (and exact ties are generic here: a candle adds one
identical value to every bin its range covers).  The analysis of the
value-area claims therefore quantifies over every list satisfying this
relation rather than fixing one tie-breaking. -/
def IsDescSortOf (l sorted : List (ℚ × ℚ)) : Prop :=
  sorted.Perm l ∧ sorted.Sorted (fun a b => b.2 ≤ a.2)

/-- Descending insertion by volume: one admissible tie-breaking used only
to keep `calculate_volume_profile` executable (see `IsDescSortOf`). -/
def insertDescImpl (x : ℚ × ℚ) : List (ℚ × ℚ) → List (ℚ × ℚ)
  | [] => [x]
  | y :: ys => if y.2 ≤ x.2 then x :: y :: ys else y :: insertDescImpl x ys

/-- An executable descending-by-volume sort: one admissible resolution of
the unspecified order of line 243 (proved admissible in
`calculate_volume_profile_is_outcome`); no theorem relies on its
tie-breaking. -/
def sortDescImpl (l : List (ℚ × ℚ)) : List (ℚ × ℚ) := l.foldr insertDescImpl []

/-- The value-area loop of lines 239-247: walk the sorted pairs,
accumulate volume, record each price, and stop once the running volume
reaches the target (the price is recorded before the break test). -/
def valueArea : List (ℚ × ℚ) → ℚ → ℚ → List ℚ
  | [], _, _ => []
  | (q, v) :: rest, target, acc =>
      q :: (if target ≤ acc + v then [] else valueArea rest target (acc + v))

/-- `poc = volume_profile.idxmax()` (line 234). -/
def pocOf (data : List Candle) (price_levels : ℕ) : ℚ :=
  ((firstMax (profileOf data price_levels)).map (·.1)).getD 0

/-- The `value_area_prices` list (lines 240-247), with target
`total_volume * 0.7` (line 238), computed here with the `sortDescImpl`
resolution of the sort's tie order. -/
def vaPricesOf (data : List Candle) (price_levels : ℕ) : List ℚ :=
  valueArea (sortDescImpl (profileOf data price_levels))
    ((((profileOf data price_levels).map (·.2)).sum) * (7/10)) 0

/-- The dictionary returned by `calculate_volume_profile`. -/
structure VolumeProfileResult where
  volume_profile : List (ℚ × ℚ)
  poc : ℚ
  value_area_high : ℚ
  value_area_low : ℚ
  deriving DecidableEq, Repr

/-- `calculate_volume_profile(data, price_levels)` (lines 188-260) on
well-formed numeric data: the only reachable exception is the explicit
`raise` on empty input (lines 199-200), whose handler returns the
all-zero default shape for empty data (lines 264-269). -/
def calculate_volume_profile (data : List Candle) (price_levels : ℕ) :
    VolumeProfileResult :=
  if data = [] then ⟨[], 0, 0, 0⟩
  else
    ⟨profileOf data price_levels, pocOf data price_levels,
     listMaxQ (vaPricesOf data price_levels),
     listMinQ (vaPricesOf data price_levels)⟩

/-- The set of results the normal path of `calculate_volume_profile` can
produce on nonempty data: the profile and poc are deterministic, while
the value-area bounds come from the value-area loop run on **some**
descending-by-volume ordering of the bins — exactly what the unstable
`sort_values(ascending=False)` of line 243 guarantees.
`calculate_volume_profile` realizes one member of this set
(`calculate_volume_profile_is_outcome`). -/
def VolumeProfileOutcome (data : List Candle) (price_levels : ℕ)
    (r : VolumeProfileResult) : Prop :=
  ∃ sorted, IsDescSortOf (profileOf data price_levels) sorted ∧
    r = ⟨profileOf data price_levels, pocOf data price_levels,
      listMaxQ (valueArea sorted
        ((((profileOf data price_levels).map (·.2)).sum) * (7/10)) 0),
      listMinQ (valueArea sorted
        ((((profileOf data price_levels).map (·.2)).sum) * (7/10)) 0)⟩

/-- The error-fallback values of lines 264-269 for nonempty data:
`poc = close.mean()`, `value_area_high = high.max()`,
`value_area_low = low.min()` (and the all-zero shape for empty data). -/
def volume_profile_fallback (data : List Candle) : VolumeProfileResult :=
  if data = [] then ⟨[], 0, 0, 0⟩
  else
    ⟨[], meanQ (data.map (·.close)), listMaxQ (data.map (·.high)),
     listMinQ (data.map (·.low))⟩

/-- `data['volume'].sum()`. -/
def totalVolume (data : List Candle) : ℚ := (data.map (·.volume)).sum

/-- The sum of all bin volumes of a result. -/
def profileSum (r : VolumeProfileResult) : ℚ := (r.volume_profile.map (·.2)).sum

/-! List min/max/sum helper lemmas. -/

lemma foldl_min_le_init (l : List ℚ) (a : ℚ) : l.foldl min a ≤ a := by
  induction l generalizing a with
  | nil => exact le_refl a
  | cons x xs ih => exact le_trans (ih (min a x)) (min_le_left a x)

lemma foldl_min_le_mem {l : List ℚ} {q : ℚ} (a : ℚ) (h : q ∈ l) :
    l.foldl min a ≤ q := by
  induction l generalizing a with
  | nil => cases h
  | cons x xs ih =>
      rcases List.mem_cons.mp h with rfl | h
      · exact le_trans (foldl_min_le_init xs (min a q)) (min_le_right a q)
      · exact ih _ h

lemma listMinQ_le {l : List ℚ} {q : ℚ} (h : q ∈ l) : listMinQ l ≤ q := by
  cases l with
  | nil => cases h
  | cons x xs =>
      rcases List.mem_cons.mp h with rfl | h
      · exact foldl_min_le_init xs q
      · exact foldl_min_le_mem x h

lemma le_foldl_min {l : List ℚ} {v a : ℚ} (ha : v ≤ a)
    (h : ∀ x ∈ l, v ≤ x) : v ≤ l.foldl min a := by
  induction l generalizing a with
  | nil => exact ha
  | cons x xs ih =>
      exact ih (le_min ha (h x (List.mem_cons_self x xs)))
        (fun y hy => h y (List.mem_cons_of_mem x hy))

lemma le_listMinQ {l : List ℚ} {v : ℚ} (hne : l ≠ [])
    (h : ∀ x ∈ l, v ≤ x) : v ≤ listMinQ l := by
  cases l with
  | nil => exact absurd rfl hne
  | cons x xs =>
      exact le_foldl_min (h x (List.mem_cons_self x xs))
        (fun y hy => h y (List.mem_cons_of_mem x hy))

lemma init_le_foldl_max (l : List ℚ) (a : ℚ) : a ≤ l.foldl max a := by
  induction l generalizing a with
  | nil => exact le_refl a
  | cons x xs ih => exact le_trans (le_max_left a x) (ih (max a x))

lemma mem_le_foldl_max {l : List ℚ} {q : ℚ} (a : ℚ) (h : q ∈ l) :
    q ≤ l.foldl max a := by
  induction l generalizing a with
  | nil => cases h
  | cons x xs ih =>
      rcases List.mem_cons.mp h with rfl | h
      · exact le_trans (le_max_right a q) (init_le_foldl_max xs (max a q))
      · exact ih _ h

lemma le_listMaxQ {l : List ℚ} {q : ℚ} (h : q ∈ l) : q ≤ listMaxQ l := by
  cases l with
  | nil => cases h
  | cons x xs =>
      rcases List.mem_cons.mp h with rfl | h
      · exact init_le_foldl_max xs q
      · exact mem_le_foldl_max x h

lemma foldl_max_le {l : List ℚ} {v a : ℚ} (ha : a ≤ v)
    (h : ∀ x ∈ l, x ≤ v) : l.foldl max a ≤ v := by
  induction l generalizing a with
  | nil => exact ha
  | cons x xs ih =>
      exact ih (max_le ha (h x (List.mem_cons_self x xs)))
        (fun y hy => h y (List.mem_cons_of_mem x hy))

lemma listMaxQ_le {l : List ℚ} {v : ℚ} (hne : l ≠ [])
    (h : ∀ x ∈ l, x ≤ v) : listMaxQ l ≤ v := by
  cases l with
  | nil => exact absurd rfl hne
  | cons x xs =>
      exact foldl_max_le (h x (List.mem_cons_self x xs))
        (fun y hy => h y (List.mem_cons_of_mem x hy))

lemma mul_length_le_sum {l : List ℚ} {v : ℚ} (h : ∀ x ∈ l, v ≤ x) :
    v * l.length ≤ l.sum := by
  induction l with
  | nil => simp
  | cons x xs ih =>
      have hx := h x (List.mem_cons_self x xs)
      have hxs := ih (fun y hy => h y (List.mem_cons_of_mem x hy))
      rw [List.sum_cons, List.length_cons]
      push_cast
      linarith

lemma sum_le_mul_length {l : List ℚ} {v : ℚ} (h : ∀ x ∈ l, x ≤ v) :
    l.sum ≤ v * l.length := by
  induction l with
  | nil => simp
  | cons x xs ih =>
      have hx := h x (List.mem_cons_self x xs)
      have hxs := ih (fun y hy => h y (List.mem_cons_of_mem x hy))
      rw [List.sum_cons, List.length_cons]
      push_cast
      linarith

/-- Inserting keeps exactly the inserted element and the old ones. -/
lemma mem_insertDescImpl {b x : ℚ × ℚ} {l : List (ℚ × ℚ)}
    (h : b ∈ insertDescImpl x l) : b = x ∨ b ∈ l := by
  induction l with
  | nil => simpa [insertDescImpl] using h
  | cons y ys ih =>
      unfold insertDescImpl at h
      by_cases hc : y.2 ≤ x.2
      · rw [if_pos hc] at h
        simpa using h
      · rw [if_neg hc] at h
        rcases List.mem_cons.mp h with h | h
        · exact Or.inr (List.mem_cons.mpr (Or.inl h))
        · rcases ih h with h | h
          · exact Or.inl h
          · exact Or.inr (List.mem_cons.mpr (Or.inr h))

lemma sorted_insertDescImpl {x : ℚ × ℚ} {l : List (ℚ × ℚ)}
    (h : l.Sorted (fun a b => b.2 ≤ a.2)) :
    (insertDescImpl x l).Sorted (fun a b => b.2 ≤ a.2) := by
  induction l with
  | nil => exact List.sorted_singleton x
  | cons y ys ih =>
      obtain ⟨hy, hys⟩ := List.sorted_cons.mp h
      unfold insertDescImpl
      by_cases hc : y.2 ≤ x.2
      · rw [if_pos hc]
        refine List.sorted_cons.mpr ⟨?_, h⟩
        intro b hb
        rcases List.mem_cons.mp hb with rfl | hb
        · exact hc
        · exact le_trans (hy b hb) hc
      · rw [if_neg hc]
        refine List.sorted_cons.mpr ⟨?_, ih hys⟩
        intro b hb
        rcases mem_insertDescImpl hb with rfl | hb
        · exact le_of_lt (lt_of_not_le hc)
        · exact hy b hb

lemma perm_insertDescImpl (x : ℚ × ℚ) (l : List (ℚ × ℚ)) :
    (insertDescImpl x l).Perm (x :: l) := by
  induction l with
  | nil => exact List.Perm.refl _
  | cons y ys ih =>
      unfold insertDescImpl
      by_cases hc : y.2 ≤ x.2
      · rw [if_pos hc]
      · rw [if_neg hc]
        exact (ih.cons y).trans (List.Perm.swap x y ys)

lemma perm_sortDescImpl (l : List (ℚ × ℚ)) : (sortDescImpl l).Perm l := by
  induction l with
  | nil => exact List.Perm.refl _
  | cons x xs ih =>
      exact (perm_insertDescImpl x (sortDescImpl xs)).trans (ih.cons x)

lemma sorted_sortDescImpl (l : List (ℚ × ℚ)) :
    (sortDescImpl l).Sorted (fun a b => b.2 ≤ a.2) := by
  induction l with
  | nil => exact List.sorted_nil
  | cons x xs ih => exact sorted_insertDescImpl ih

lemma linspace_length (a b : ℚ) (n : ℕ) : (linspace a b n).length = n := by
  unfold linspace
  by_cases h : n ≤ 1
  · rw [if_pos h, List.length_replicate]
  · rw [if_neg h, List.length_map, List.length_range]

lemma binsOf_length (data : List Candle) (p : ℕ) :
    (binsOf data p).length = p := by
  unfold binsOf
  exact linspace_length _ _ _

lemma profileOf_ne_nil {data : List Candle} {p : ℕ} (hp : 1 ≤ p) :
    profileOf data p ≠ [] := by
  unfold profileOf
  intro h
  have hlen := congrArg List.length h
  rw [List.length_map, binsOf_length] at hlen
  simp only [List.length_nil] at hlen
  omega

/-- The executable tie-breaking of `sortDescImpl` is one admissible
descending order, so `calculate_volume_profile` realizes one member of
the outcome set. -/
lemma calculate_volume_profile_is_outcome (data : List Candle) (p : ℕ)
    (hne : data ≠ []) :
    VolumeProfileOutcome data p (calculate_volume_profile data p) :=
  ⟨sortDescImpl (profileOf data p),
    ⟨perm_sortDescImpl _, sorted_sortDescImpl _⟩,
    by
      unfold calculate_volume_profile vaPricesOf
      rw [if_neg hne]⟩

/-- **C4 (amended).**  The invariant
`value_area_low ≤ poc ≤ value_area_high` holds for **every** admissible
result of the normal path — i.e. under every descending-by-volume
ordering the unstable `sort_values` may produce — **provided the maximal
bin volume picks out the poc's price uniquely** (every bin of maximal
volume carries the poc price; in particular whenever the maximum is
unique).  Then any admissible order must start with a maximal bin, whose
price is the poc, and the value-area loop records the head before any
break.  With exact ties the invariant can fail on an admissible order
(`c4_counterexample`).  The error-fallback shape (`low.min()`,
`close.mean()`, `high.max()`) satisfies the same inequalities for candles
obeying the OHLC invariant `low ≤ close ≤ high`. -/
theorem c4_value_area_contains_poc (data : List Candle) (p : ℕ)
    (r : VolumeProfileResult)
    (hne : data ≠ []) (hp : 1 ≤ p)
    (hwf : ∀ c ∈ data, c.low ≤ c.close ∧ c.close ≤ c.high)
    (hout : VolumeProfileOutcome data p r)
    (huniq : ∀ pr ∈ profileOf data p,
      (∀ qr ∈ profileOf data p, qr.2 ≤ pr.2) → pr.1 = pocOf data p) :
    (r.value_area_low ≤ r.poc ∧ r.poc ≤ r.value_area_high) ∧
      ((volume_profile_fallback data).value_area_low ≤
          (volume_profile_fallback data).poc ∧
        (volume_profile_fallback data).poc ≤
          (volume_profile_fallback data).value_area_high) := by
  constructor
  · obtain ⟨sorted, ⟨hperm, hsorted⟩, rfl⟩ := hout
    cases sorted with
    | nil => exact absurd hperm.symm.eq_nil (profileOf_ne_nil hp)
    | cons hd tl =>
        have hmem : hd ∈ profileOf data p :=
          hperm.mem_iff.mp (List.mem_cons_self hd tl)
        have hmax : ∀ qr ∈ profileOf data p, qr.2 ≤ hd.2 := by
          intro qr hqr
          rcases List.mem_cons.mp (hperm.mem_iff.mpr hqr) with heq | hqt
          · rw [heq]
          · exact (List.sorted_cons.mp hsorted).1 qr hqt
        have hpoc : hd.1 = pocOf data p := huniq hd hmem hmax
        have hva : ∃ rest,
            valueArea (hd :: tl)
              ((((profileOf data p).map (·.2)).sum) * (7/10)) 0
              = hd.1 :: rest := by
          obtain ⟨hq, hv⟩ := hd
          exact ⟨_, rfl⟩
        obtain ⟨rest, hva⟩ := hva
        show listMinQ (valueArea (hd :: tl)
              ((((profileOf data p).map (·.2)).sum) * (7/10)) 0)
            ≤ pocOf data p ∧
          pocOf data p ≤ listMaxQ (valueArea (hd :: tl)
              ((((profileOf data p).map (·.2)).sum) * (7/10)) 0)
        rw [hva, ← hpoc]
        exact ⟨foldl_min_le_init rest hd.1, init_le_foldl_max rest hd.1⟩
  · unfold volume_profile_fallback
    rw [if_neg hne]
    simp only
    have hlen : (0 : ℚ) < (data.map (·.close)).length := by
      rw [List.length_map]
      cases data with
      | nil => exact absurd rfl hne
      | cons c rest =>
          rw [List.length_cons]
          exact_mod_cast Nat.succ_pos rest.length
    constructor
    · have hlow : ∀ x ∈ data.map (·.close), listMinQ (data.map (·.low)) ≤ x := by
        intro x hx
        obtain ⟨c, hc, rfl⟩ := List.mem_map.mp hx
        exact le_trans (listMinQ_le (List.mem_map.mpr ⟨c, hc, rfl⟩))
          (hwf c hc).1
      have hsum := mul_length_le_sum hlow
      unfold meanQ
      rw [le_div_iff₀ hlen]
      exact hsum
    · have hhigh : ∀ x ∈ data.map (·.close), x ≤ listMaxQ (data.map (·.high)) := by
        intro x hx
        obtain ⟨c, hc, rfl⟩ := List.mem_map.mp hx
        exact le_trans (hwf c hc).2
          (le_listMaxQ (List.mem_map.mpr ⟨c, hc, rfl⟩))
      have hsum := sum_le_mul_length hhigh
      unfold meanQ
      rw [div_le_iff₀ hlen]
      exact hsum

/-- A single full-span candle: all 100 bins receive the identical volume
`1`, so every ordering of the bins is a valid descending sort. -/
def dataC4 : List Candle := [⟨3/2, 2, 1, 3/2, 100⟩]

/-- The reversed bin order — admissible for `sort_values` on the all-tied
profile of `dataC4`, and the shape numpy's unstable quicksort is observed
to produce on tied inputs. -/
def badSortC4 : List (ℚ × ℚ) := (profileOf dataC4 100).reverse

/-- The normal-path result of `calculate_volume_profile` on `dataC4` when
the sort yields `badSortC4`. -/
def badResultC4 : VolumeProfileResult :=
  ⟨profileOf dataC4 100, pocOf dataC4 100,
   listMaxQ (valueArea badSortC4
     ((((profileOf dataC4 100).map (·.2)).sum) * (7/10)) 0),
   listMinQ (valueArea badSortC4
     ((((profileOf dataC4 100).map (·.2)).sum) * (7/10)) 0)⟩

/-- **C4 counterexample.**  The claimed invariant fails on an admissible
execution of the normal path: on `dataC4` all 100 bins tie at volume 1,
so the reversed order is a valid output of the unstable descending sort;
the value-area loop then records the 70 highest prices (bins 99 down
to 30), while the poc — `idxmax` returns the **first** maximal bin, price
1 — lies strictly below `value_area_low = 1 + 30/99 = 43/33`.  So
`value_area_low ≤ poc` is violated. -/
theorem c4_counterexample :
    VolumeProfileOutcome dataC4 100 badResultC4 ∧
      badResultC4.poc < badResultC4.value_area_low :=
  ⟨⟨badSortC4, ⟨List.reverse_perm _, by decide⟩, rfl⟩, by decide⟩

/-- The two-candle witness data: bin price 2 has strictly maximal
volume 13, bin price 1 has volume 5. -/
def dataW4 : List Candle := [⟨1, 2, 1, 3/2, 10⟩, ⟨2, 2, 3/2, 2, 8⟩]

/-- The unique admissible result on `dataW4` with two bins. -/
def resultW4 : VolumeProfileResult := ⟨[(1, 5), (2, 13)], 2, 2, 2⟩

/-- Witness for `c4_value_area_contains_poc` at `dataW4`, whose maximal
bin volume is unique. -/
theorem c4_witness :
    (dataW4 ≠ [] ∧ 1 ≤ 2 ∧
      (∀ c ∈ dataW4, c.low ≤ c.close ∧ c.close ≤ c.high) ∧
      VolumeProfileOutcome dataW4 2 resultW4 ∧
      (∀ pr ∈ profileOf dataW4 2,
        (∀ qr ∈ profileOf dataW4 2, qr.2 ≤ pr.2) → pr.1 = pocOf dataW4 2)) ∧
    ((resultW4.value_area_low ≤ resultW4.poc ∧
        resultW4.poc ≤ resultW4.value_area_high) ∧
      ((volume_profile_fallback dataW4).value_area_low ≤
          (volume_profile_fallback dataW4).poc ∧
        (volume_profile_fallback dataW4).poc ≤
          (volume_profile_fallback dataW4).value_area_high)) :=
  ⟨⟨by decide, by decide, by decide,
      ⟨[(2, 13), (1, 5)], ⟨by decide, by decide⟩, by decide⟩, by decide⟩,
    c4_value_area_contains_poc dataW4 2 resultW4 (by decide) (by decide)
      (by decide)
      ⟨[(2, 13), (1, 5)], ⟨by decide, by decide⟩, by decide⟩
      (by decide)⟩

/-! ### C7 — bin-volume conservation.

Each candle contributes `volume * price_delta / (high - low)` to every bin
price inside `[low, high]`, so its total contribution is
`volume * price_delta * (number of such bins) / (high - low)`, which
equals `volume` only when the bins inside the candle's range measure
exactly `(high - low) / price_delta` — not true in general because the
bin GRID step is `(max-min)/(p-1)` while `price_delta` is `(max-min)/p`. -/

lemma sum_map_eq_length_mul {α : Type} (l : List α) (f : α → ℚ) (k : ℚ)
    (h : ∀ x ∈ l, f x = k) : (l.map f).sum = l.length * k := by
  induction l with
  | nil => simp
  | cons x xs ih =>
      rw [List.map_cons, List.sum_cons, List.length_cons,
        h x (List.mem_cons_self x xs),
        ih (fun y hy => h y (List.mem_cons_of_mem x hy))]
      push_cast
      ring

lemma sum_sum_comm {α β : Type} (l1 : List α) (l2 : List β) (f : α → β → ℚ) :
    (l1.map (fun a => (l2.map (f a)).sum)).sum
      = (l2.map (fun b => (l1.map (fun a => f a b)).sum)).sum := by
  induction l1 with
  | nil =>
      simp
  | cons a l1 ih =>
      rw [List.map_cons, List.sum_cons, ih, ← List.sum_map_add]
      apply congrArg
      apply List.map_congr_left
      intro b _
      rw [List.map_cons, List.sum_cons]

lemma linspace_mem {a b : ℚ} (hab : a ≤ b) {n : ℕ} {q : ℚ}
    (hq : q ∈ linspace a b n) : a ≤ q ∧ q ≤ b := by
  unfold linspace at hq
  by_cases h : n ≤ 1
  · rw [if_pos h] at hq
    obtain rfl := List.eq_of_mem_replicate hq
    exact ⟨le_refl q, hab⟩
  · rw [if_neg h] at hq
    obtain ⟨i, hi, rfl⟩ := List.mem_map.mp hq
    have hn2 : 2 ≤ n := by omega
    have hipos : (0 : ℚ) < (n : ℚ) - 1 := by
      have : (2 : ℚ) ≤ (n : ℚ) := by exact_mod_cast hn2
      linarith
    have hicast : (i : ℚ) ≤ (n : ℚ) - 1 := by
      have : i + 1 ≤ n := List.mem_range.mp hi
      have : ((i : ℕ) : ℚ) + 1 ≤ (n : ℚ) := by exact_mod_cast this
      linarith
    constructor
    · have : 0 ≤ (i : ℚ) * (b - a) / ((n : ℚ) - 1) := by
        apply div_nonneg
        · exact mul_nonneg (by positivity) (sub_nonneg.mpr hab)
        · linarith
      linarith
    · have hmul : (i : ℚ) * (b - a) ≤ ((n : ℚ) - 1) * (b - a) :=
        mul_le_mul_of_nonneg_right hicast (sub_nonneg.mpr hab)
      have hdiv : (i : ℚ) * (b - a) / ((n : ℚ) - 1) ≤ b - a := by
        rw [div_le_iff₀ hipos]
        calc (i : ℚ) * (b - a) ≤ ((n : ℚ) - 1) * (b - a) := hmul
          _ = (b - a) * ((n : ℚ) - 1) := by ring
      linarith

lemma listMinQ_eq_of_all {l : List ℚ} {v : ℚ} (hne : l ≠ [])
    (h : ∀ x ∈ l, x = v) : listMinQ l = v := by
  cases l with
  | nil => exact absurd rfl hne
  | cons x xs =>
      apply le_antisymm
      · rw [← h x (List.mem_cons_self x xs)]
        exact listMinQ_le (List.mem_cons_self x xs)
      · exact le_listMinQ hne (fun y hy => le_of_eq (h y hy).symm)

lemma listMaxQ_eq_of_all {l : List ℚ} {v : ℚ} (hne : l ≠ [])
    (h : ∀ x ∈ l, x = v) : listMaxQ l = v := by
  cases l with
  | nil => exact absurd rfl hne
  | cons x xs =>
      apply le_antisymm
      · exact listMaxQ_le hne (fun y hy => le_of_eq (h y hy))
      · rw [← h x (List.mem_cons_self x xs)]
        exact le_listMaxQ (List.mem_cons_self x xs)

/-- **C7 (amended).**  The bin volumes of `calculate_volume_profile` sum
to the input's total volume in the special case where every candle spans
the entire binned price range (`low = L`, `high = H` for all candles, with
all closes inside): then every one of the `p` bins receives
`volume * delta / (H - L) = volume / p` from each candle.  (The general
claim is refuted by `c7_counterexample`.) -/
theorem c7_sum_conservation_full_span (data : List Candle) (p : ℕ)
    (L H : ℚ) (hne : data ≠ []) (hp : 1 ≤ p) (hLH : L < H)
    (hspan : ∀ c ∈ data, c.low = L ∧ c.high = H ∧ L ≤ c.close ∧ c.close ≤ H) :
    profileSum (calculate_volume_profile data p) = totalVolume data := by
  have hmapne : ∀ (f : Candle → ℚ), data.map f ≠ [] := by
    intro f h
    exact hne (List.map_eq_nil_iff.mp h)
  have hpmin : pminOf data = L := by
    unfold pminOf
    have hlows : listMinQ (data.map (·.low)) = L :=
      listMinQ_eq_of_all (hmapne _) (by
        intro x hx
        obtain ⟨c, hc, rfl⟩ := List.mem_map.mp hx
        exact (hspan c hc).1)
    have hcloses : L ≤ listMinQ (data.map (·.close)) :=
      le_listMinQ (hmapne _) (by
        intro x hx
        obtain ⟨c, hc, rfl⟩ := List.mem_map.mp hx
        exact (hspan c hc).2.2.1)
    rw [hlows]
    exact min_eq_left hcloses
  have hpmax : pmaxOf data = H := by
    unfold pmaxOf
    have hhighs : listMaxQ (data.map (·.high)) = H :=
      listMaxQ_eq_of_all (hmapne _) (by
        intro x hx
        obtain ⟨c, hc, rfl⟩ := List.mem_map.mp hx
        exact (hspan c hc).2.1)
    have hcloses : listMaxQ (data.map (·.close)) ≤ H :=
      listMaxQ_le (hmapne _) (by
        intro x hx
        obtain ⟨c, hc, rfl⟩ := List.mem_map.mp hx
        exact (hspan c hc).2.2.2)
    rw [hhighs]
    exact max_eq_left hcloses
  have hadj : adjustedMax data = H := by
    unfold adjustedMax
    rw [hpmin, hpmax, if_neg (ne_of_lt hLH)]
  have hpQ : (0 : ℚ) < (p : ℚ) := by exact_mod_cast hp
  have hHL : (0 : ℚ) < H - L := sub_pos.mpr hLH
  have hdelta : deltaOf data p = (H - L) / p := by
    unfold deltaOf
    rw [hadj, hpmin]
    have : (H - L) / (p : ℚ) ≠ 0 := by positivity
    simp only [this, if_false]
  have hbins : binsOf data p = linspace L H p := by
    unfold binsOf
    rw [hpmin, hadj]
  have hbinslen : (binsOf data p).length = p := binsOf_length data p
  -- contribution of a full-span candle to any bin price inside [L, H]
  have hcontrib : ∀ c ∈ data, ∀ q ∈ binsOf data p,
      contributionAt c q (deltaOf data p) = c.volume / p := by
    intro c hc q hq
    obtain ⟨hlo, hhi, _, _⟩ := hspan c hc
    rw [hbins] at hq
    obtain ⟨hq1, hq2⟩ := linspace_mem (le_of_lt hLH) hq
    unfold contributionAt
    rw [hlo, hhi, if_neg (ne_of_gt hLH : H ≠ L), if_pos ⟨hq1, hq2⟩, hdelta]
    have hred : (H - L) / ((H - L) / (p : ℚ)) = (p : ℚ) := by
      rw [div_div_eq_mul_div]
      rw [mul_comm, mul_div_assoc, div_self (ne_of_gt hHL), mul_one]
    rw [hred]
  -- unfold the profile sum and swap the two summations
  unfold calculate_volume_profile
  rw [if_neg hne]
  unfold profileSum profileOf totalVolume
  simp only [List.map_map]
  have hcomp : ((fun x : ℚ × ℚ => x.2) ∘ fun q =>
      (q, (data.map (fun c => contributionAt c q (deltaOf data p))).sum))
      = fun q => (data.map (fun c => contributionAt c q (deltaOf data p))).sum :=
    rfl
  rw [hcomp, sum_sum_comm (binsOf data p) data
    (fun q c => contributionAt c q (deltaOf data p))]
  apply congrArg
  apply List.map_congr_left
  intro c hc
  rw [sum_map_eq_length_mul (binsOf data p) _ (c.volume / p)
    (fun q hq => hcontrib c hc q hq), hbinslen]
  field_simp

/-- The two-candle fixture refuting C7: candle A spans the whole range
`[100, 200]`, candle B spans `[150, 151.5]` (no candle collapses to zero
range). -/
def dataC7 : List Candle :=
  [⟨150, 200, 100, 150, 1⟩, ⟨151, 303/2, 150, 151, 1⟩]

/-- **C7 counterexample.**  On `dataC7` (no candle has `high = low`), with
the default 100 price levels, the bin volumes sum to `5/3` while the input
volumes sum to `2`: candle B's range `[150, 151.5]` contains exactly one
bin price, receiving `1 / ((151.5-150)/1) = 2/3` of its unit volume, so
one third of the total volume is lost — far beyond floating tolerance. -/
theorem c7_counterexample :
    (∀ c ∈ dataC7, c.high ≠ c.low) ∧
      profileSum (calculate_volume_profile dataC7 100) = 5/3 ∧
      totalVolume dataC7 = 2 ∧
      profileSum (calculate_volume_profile dataC7 100) ≠ totalVolume dataC7 := by
  refine ⟨by decide, ?_, by decide, ?_⟩ <;> decide

/-- Witness for `c7_sum_conservation_full_span`: two candles, both
spanning `[1, 2]`, two bins. -/
theorem c7_witness :
    (([(⟨3/2, 2, 1, 3/2, 5⟩ : Candle), ⟨3/2, 2, 1, 2, 7⟩] : List Candle) ≠ [] ∧
      1 ≤ 2 ∧ (1 : ℚ) < 2 ∧
      (∀ c ∈ [(⟨3/2, 2, 1, 3/2, 5⟩ : Candle), ⟨3/2, 2, 1, 2, 7⟩],
        c.low = 1 ∧ c.high = 2 ∧ (1 : ℚ) ≤ c.close ∧ c.close ≤ 2)) ∧
    profileSum (calculate_volume_profile
        [⟨3/2, 2, 1, 3/2, 5⟩, ⟨3/2, 2, 1, 2, 7⟩] 2)
      = totalVolume [⟨3/2, 2, 1, 3/2, 5⟩, ⟨3/2, 2, 1, 2, 7⟩] :=
  ⟨⟨by decide, by decide, by decide, by decide⟩,
    c7_sum_conservation_full_span _ 2 1 2 (by decide) (by decide) (by decide)
      (by decide)⟩

/-! ## Historical backtester — `HistoricalAnalyzer`
(`src/src/analysis/historical_analyzer.py`).

The claims under study concern the prediction records accumulated by
`analyze_historical_data` (lines 74-98) and `_generate_prediction`
(lines 135-155).  `period_data` is the date-filtered, `_clean_market_data`-
cleaned series; on well-formed numeric candles the cleaning (numeric
coercion, NaN fills, inf removal) is the identity, so the model takes the
cleaned series directly as input.  The source stores
`volatility = returns.std(ddof=1) * sqrt(252)`; the model carries its
square `252 * (sample variance)` — an order-isomorphic encoding on the
nonnegatives that keeps every definition rational and computable. -/

/-- `HistoricalAnalyzer.MIN_DATA_POINTS` (line 8). -/
def MIN_DATA_POINTS : ℕ := 50

/-- `HistoricalAnalyzer.MIN_PREDICTION_POINTS` (line 9). -/
def MIN_PREDICTION_POINTS : ℕ := 24

/-- The `trade_signals` portion of the `analysis_results` dictionary as
read by `_generate_prediction`: `.get('direction')` may be absent
(`none`), `.get('confidence', 0)` defaults to `0`. -/
structure AnalysisResults where
  direction : Option String
  confidence : ℚ
  deriving DecidableEq, Repr

/-- `Series.pct_change()` on closes, with the leading NaN dropped (the
downstream `std` skips it). -/
def pctChange : List ℚ → List ℚ
  | [] => []
  | [_] => []
  | x :: y :: rest => (y - x) / x :: pctChange (y :: rest)

/-- Sample variance (`ddof=1`, as in `Series.std()`); `0` for fewer than
two points (the source guards this case by returning the default
conditions). -/
def sampleVar (xs : List ℚ) : ℚ :=
  if xs.length ≤ 1 then 0
  else ((xs.map (fun x => (x - meanQ xs) * (x - meanQ xs))).sum)
    / ((xs.length - 1 : ℕ) : ℚ)

/-- `rolling(window=k).mean().iloc[-1]`: the mean of the last `k`
entries. -/
def lastKMean (k : ℕ) (xs : List ℚ) : ℚ := meanQ (xs.drop (xs.length - k))

/-- `_calculate_trend` (lines 299-316): `unknown` under 50 bars, else
compare the last 20-bar and 50-bar close means. -/
def calculate_trend (data : List Candle) : String :=
  if data.length < 50 then "unknown"
  else
    if lastKMean 50 (data.map (·.close)) < lastKMean 20 (data.map (·.close))
    then "uptrend"
    else if lastKMean 20 (data.map (·.close)) < lastKMean 50 (data.map (·.close))
    then "downtrend"
    else "sideways"

/-- The `market_conditions` dictionary of `_analyze_market_conditions`
(lines 273-297); `volatility_sq` is the square of the stored annualized
volatility (see the section comment). -/
structure MarketConditions where
  volatility_sq : ℚ
  trend : String
  volume_profile : String
  deriving DecidableEq, Repr

/-- `_analyze_market_conditions(data)` (lines 273-297). -/
def analyze_market_conditions (data : List Candle) : MarketConditions :=
  if data.length < 2 then ⟨0, "unknown", "normal"⟩
  else
    ⟨252 * sampleVar (pctChange (data.map (·.close))),
     calculate_trend data,
     if meanQ (data.map (·.volume)) < ((data.getLast?.map (·.volume)).getD 0)
     then "high" else "low"⟩

/-- The `price_levels` sub-dictionary of a prediction (lines 145-149). -/
structure PriceLevels where
  entry : ℚ
  tp : ℚ
  sl : ℚ
  deriving DecidableEq, Repr

/-- A prediction as built by `_generate_prediction` (lines 142-151). -/
structure Prediction where
  direction : String
  confidence : ℚ
  price_levels : PriceLevels
  market_conditions : MarketConditions
  deriving DecidableEq, Repr

/-- `_generate_prediction(data, analysis_results)` (lines 135-155):
`None` under `MIN_DATA_POINTS` bars; otherwise direction is `'long'`
exactly when the supplied analysis carries `'long'`, else `'short'`;
entry is the last close; tp/sl are `±2%`/`∓1%` offsets by direction. -/
def generate_prediction (data : List Candle) (ar : AnalysisResults) :
    Option Prediction :=
  if data.length < MIN_DATA_POINTS then none
  else
    some ⟨(if ar.direction = some "long" then "long" else "short"),
      ar.confidence,
      ⟨((data.getLast?.map (·.close)).getD 0),
       ((data.getLast?.map (·.close)).getD 0) *
         (if ar.direction = some "long" then 102/100 else 98/100),
       ((data.getLast?.map (·.close)).getD 0) *
         (if ar.direction = some "long" then 99/100 else 101/100)⟩,
      analyze_market_conditions data⟩

/-- The `actual` outcome dictionary of `_get_actual_outcome`
(lines 157-172). -/
structure ActualOutcome where
  high : ℚ
  low : ℚ
  close : ℚ
  trend : String
  deriving DecidableEq, Repr

/-- `_get_actual_outcome(data, index)` (lines 157-172): the forward
window `data.iloc[index : index + MIN_PREDICTION_POINTS]`. -/
def get_actual_outcome (data : List Candle) (index : ℕ) :
    Option ActualOutcome :=
  if ((data.drop index).take MIN_PREDICTION_POINTS).length <
      MIN_PREDICTION_POINTS then none
  else
    some ⟨listMaxQ (((data.drop index).take MIN_PREDICTION_POINTS).map (·.high)),
      listMinQ (((data.drop index).take MIN_PREDICTION_POINTS).map (·.low)),
      ((((data.drop index).take MIN_PREDICTION_POINTS).getLast?.map
        (·.close)).getD 0),
      calculate_trend ((data.drop index).take MIN_PREDICTION_POINTS)⟩

/-- `_evaluate_prediction(prediction, actual)` (lines 174-185). -/
def evaluate_prediction (p : Prediction) (a : ActualOutcome) : Bool :=
  if p.direction = "long" then
    decide (p.price_levels.tp ≤ a.high) && decide (p.price_levels.sl ≤ a.low)
  else
    decide (a.low ≤ p.price_levels.tp) && decide (a.high ≤ p.price_levels.sl)

/-- One entry of `results['predictions']` (lines 92-97); the DataFrame
timestamp `period_data.index[i]` is represented by the cursor index. -/
structure PredictionRecord where
  cursor : ℕ
  predicted : Prediction
  actual : ActualOutcome
  success : Bool
  deriving DecidableEq, Repr

/-- The prediction generated at cursor `i`: `_generate_prediction` applied
to `historical_slice = period_data.iloc[:i]` (line 81), the bars strictly
before `i`. -/
def predictionAtCursor (series : List Candle) (ar : AnalysisResults)
    (i : ℕ) : Option Prediction :=
  generate_prediction (series.take i) ar

/-- The `results['predictions']` list accumulated by the loop of
`analyze_historical_data` (lines 76-98): cursors run until
`i + MIN_PREDICTION_POINTS > len` breaks the loop; a cursor whose
trailing slice is shorter than `MIN_DATA_POINTS` is skipped; a record is
appended when both the prediction and the actual outcome exist. -/
def backtestRecords (series : List Candle) (ar : AnalysisResults) :
    List PredictionRecord :=
  ((List.range series.length).takeWhile
      (fun i => decide (i + MIN_PREDICTION_POINTS ≤ series.length))).filterMap
    (fun i =>
      if (series.take i).length < MIN_DATA_POINTS then none
      else
        match predictionAtCursor series ar i, get_actual_outcome series i with
        | some p, some a => some ⟨i, p, a, evaluate_prediction p a⟩
        | _, _ => none)

/-- **C3.**  No lookahead: the prediction generated at cursor `i` is a
function of `series.take i` — the bars strictly before `i` — alone, so two
input series agreeing on `[0, i)` produce identical predictions (all
fields: direction, confidence, entry/tp/sl, market conditions) under the
same fixed `analysis_results`. -/
theorem c3_no_lookahead (s t : List Candle) (ar : AnalysisResults) (i : ℕ)
    (h : s.take i = t.take i) :
    predictionAtCursor s ar i = predictionAtCursor t ar i := by
  unfold predictionAtCursor
  rw [h]

/-- The constant demo candle. -/
def demoCandle : Candle := ⟨1, 1, 1, 1, 1⟩

/-- Witness for `c3_no_lookahead`: two 51-bar series identical on their
first 50 bars but different at bar 50. -/
theorem c3_witness :
    (List.replicate 50 demoCandle ++ [⟨2, 3, 1, 2, 4⟩] : List Candle).take 50
        = (List.replicate 50 demoCandle ++ [⟨5, 6, 4, 5, 7⟩] :
            List Candle).take 50 ∧
      predictionAtCursor (List.replicate 50 demoCandle ++ [⟨2, 3, 1, 2, 4⟩])
          ⟨some "long", 80⟩ 50
        = predictionAtCursor (List.replicate 50 demoCandle ++ [⟨5, 6, 4, 5, 7⟩])
          ⟨some "long", 80⟩ 50 :=
  ⟨by decide,
    c3_no_lookahead (List.replicate 50 demoCandle ++ [⟨2, 3, 1, 2, 4⟩])
      (List.replicate 50 demoCandle ++ [⟨5, 6, 4, 5, 7⟩])
      ⟨some "long", 80⟩ 50 (by decide)⟩

lemma generate_prediction_direction {data : List Candle}
    {ar : AnalysisResults} {p : Prediction}
    (h : generate_prediction data ar = some p) :
    p.direction = (if ar.direction = some "long" then "long" else "short") := by
  unfold generate_prediction at h
  by_cases hlen : data.length < MIN_DATA_POINTS
  · rw [if_pos hlen] at h
    cases h
  · rw [if_neg hlen] at h
    obtain rfl := Option.some_injective _ h.symm
    rfl

/-- **C10.**  Every prediction record produced by a backtest run carries
direction exactly `'long'` or `'short'` (never absent or `'none'`), and
whenever the supplied analysis carries any trade-signal direction other
than `'long'` — including a missing one — every prediction of the run is
`'short'`. -/
theorem c10_direction_dichotomy (series : List Candle)
    (ar : AnalysisResults) (r : PredictionRecord)
    (hr : r ∈ backtestRecords series ar) :
    (r.predicted.direction = "long" ∨ r.predicted.direction = "short") ∧
      (ar.direction ≠ some "long" → r.predicted.direction = "short") := by
  obtain ⟨i, _, hsome⟩ := List.mem_filterMap.mp hr
  by_cases hlen : (series.take i).length < MIN_DATA_POINTS
  · rw [if_pos hlen] at hsome
    cases hsome
  · rw [if_neg hlen] at hsome
    cases hp : predictionAtCursor series ar i with
    | none =>
        rw [hp] at hsome
        cases hsome
    | some p =>
        cases ha : get_actual_outcome series i with
        | none =>
            rw [hp, ha] at hsome
            cases hsome
        | some a =>
            rw [hp, ha] at hsome
            obtain rfl := Option.some_injective _ hsome
            have hdir := generate_prediction_direction hp
            constructor
            · by_cases hd : ar.direction = some "long"
              · left
                rw [hdir, if_pos hd]
              · right
                rw [hdir, if_neg hd]
            · intro hd
              rw [hdir, if_neg hd]

/-- The single record of the demo backtest run: cursor 50 of a constant
74-bar series with no supplied direction. -/
def demoRecord : PredictionRecord :=
  ⟨50, ⟨"short", 0, ⟨1, 98/100, 101/100⟩, ⟨0, "sideways", "low"⟩⟩,
    ⟨1, 1, 1, "unknown"⟩, false⟩

/-- Witness for `c10_direction_dichotomy`: the demo record is produced by
a run over 74 constant candles with a missing trade-signal direction. -/
theorem c10_witness :
    demoRecord ∈ backtestRecords (List.replicate 74 demoCandle) ⟨none, 0⟩ ∧
      ((demoRecord.predicted.direction = "long" ∨
          demoRecord.predicted.direction = "short") ∧
        ((⟨none, 0⟩ : AnalysisResults).direction ≠ some "long" →
          demoRecord.predicted.direction = "short")) :=
  ⟨by decide,
    c10_direction_dichotomy (List.replicate 74 demoCandle) ⟨none, 0⟩
      demoRecord (by decide)⟩

end TradingAI
